/-
Verification of the ColorStack image-to-3D-print core.

Shallow embedding of the algorithmic core of the repository:
  * public/js/image_worker.js  (color conversion, palette uniqueness
    enforcement, filament matching, farthest-point selection, band
    quantization / processImage)
  * public/js/stl_exporter.js  (heightfield mesh generation)

Modelling conventions:
  * JavaScript numbers that only ever hold 8-bit channel values or array
    indices are modelled as Nat / Int; physical coordinates are modelled
    as rationals.
  * `Math.random()` is modelled by explicit oracle arguments (a list of
    sampled pixel indices and an explicit fallback triple), so that the
    nondeterministic functions become deterministic in their oracles.
  * JS `array[i]` reads that can yield `undefined` are modelled with
    `List.get?` / guarded lookups returning the JS-observable result.
-/
import Mathlib

namespace ColorStack

/-! ### Color encoding: hexToRgb / rgbToHex (image_worker.js lines 15-29) -/

/-- Value of one hex digit character, as consumed by JS `parseInt(s, 16)`;
`none` for a character that stops the parse. -/
def hexDigitVal? (c : Char) : Option Nat :=
  if '0' ≤ c ∧ c ≤ '9' then some (c.toNat - 48)
  else if 'a' ≤ c ∧ c ≤ 'f' then some (c.toNat - 87)
  else if 'A' ≤ c ∧ c ≤ 'F' then some (c.toNat - 55)
  else none

/-- JS `parseInt(chars, 16)`: consume the maximal prefix of hex digits,
accumulating base-16.  (A parse with no valid digit yields JS `NaN`, whose
subsequent `>> / &` bit operations coincide with the result for 0, which is
what this total model returns.) -/
def parseHexNat : List Char → Nat → Nat
  | [], acc => acc
  | c :: cs, acc =>
    match hexDigitVal? c with
    | some d => parseHexNat cs (16 * acc + d)
    | none => acc

/-- JS `hexToRgb(hex)`: `parseInt(hex.slice(1), 16)` then extract the three
bytes with `(v >> 16) & 255`, `(v >> 8) & 255`, `v & 255`.  JS bit
operations work on the value reduced mod 2^32. -/
def hexToRgb (hex : String) : Nat × Nat × Nat :=
  let v := parseHexNat (hex.data.drop 1) 0 % 2 ^ 32
  ((v / 2 ^ 16) % 256, (v / 2 ^ 8) % 256, v % 256)

/-- Hex digit character used by JS `Number.prototype.toString(16)`
(lowercase). -/
def toHexDigit (n : Nat) : Char :=
  if n < 10 then Char.ofNat (48 + n) else Char.ofNat (87 + n)

/-- Digit-extraction loop of JS `v.toString(16)`, least-significant digit
peeled per step.  The fuel argument only bounds the recursion depth; any
fuel of at least the digit count (in particular `n + 1`) is exact. -/
def toHexCharsAux : Nat → Nat → List Char → List Char
  | _, 0, acc => acc
  | n, fuel + 1, acc =>
    if n < 16 then toHexDigit n :: acc
    else toHexCharsAux (n / 16) fuel (toHexDigit (n % 16) :: acc)

/-- JS `v.toString(16)` for a natural number: most-significant digit
first, at least one digit. -/
def toHexChars (n : Nat) : List Char :=
  toHexCharsAux n (n + 1) []

theorem toHexCharsAux_succ (n fuel : Nat) (acc : List Char) :
    toHexCharsAux n (fuel + 1) acc =
      if n < 16 then toHexDigit n :: acc
      else toHexCharsAux (n / 16) fuel (toHexDigit (n % 16) :: acc) := rfl

/-- JS `s.padStart(2, '0')`. -/
def padStart2 (s : List Char) : List Char :=
  List.replicate (2 - s.length) '0' ++ s

/-- JS `rgbToHex(r, g, b)`: `'#' + [r,g,b].map(v => v.toString(16).padStart(2,'0')).join('')`.
(`Math.round` is the identity on the natural-number channels modelled
here.) -/
def rgbToHex (r g b : Nat) : String :=
  "#" ++ String.join (([r, g, b].map (fun v => String.mk (padStart2 (toHexChars v)))))

/-! ### Round-trip lemmas for claim C9 -/

theorem hexDigitVal_toHexDigit {d : Nat} (h : d < 16) :
    hexDigitVal? (toHexDigit d) = some d := by
  interval_cases d <;> decide

theorem padStart2_toHexChars {v : Nat} (h : v ≤ 255) :
    padStart2 (toHexChars v) = [toHexDigit (v / 16), toHexDigit (v % 16)] := by
  by_cases h16 : v < 16
  · rw [toHexChars, toHexCharsAux_succ]
    have hv16 : v / 16 = 0 := Nat.div_eq_of_lt h16
    have hvm : v % 16 = v := Nat.mod_eq_of_lt h16
    have h0 : toHexDigit 0 = '0' := by decide
    simp [h16, padStart2, hv16, hvm, h0, List.replicate]
  · have h2 : v / 16 < 16 := by omega
    have hstep : toHexCharsAux (v / 16) v [toHexDigit (v % 16)] =
        [toHexDigit (v / 16), toHexDigit (v % 16)] := by
      obtain ⟨w, rfl⟩ : ∃ w, v = w + 1 := ⟨v - 1, by omega⟩
      rw [toHexCharsAux_succ, if_pos h2]
    rw [toHexChars, toHexCharsAux_succ, if_neg h16, hstep]
    simp [padStart2]

theorem parseHexNat_digits (a b : Nat) (cs : List Char) (acc : Nat) (ha : a < 16) (hb : b < 16) :
    parseHexNat (toHexDigit a :: toHexDigit b :: cs) acc =
      parseHexNat cs (16 * (16 * acc + a) + b) := by
  simp [parseHexNat, hexDigitVal_toHexDigit ha, hexDigitVal_toHexDigit hb]

theorem data_rgbToHex (r g b : Nat) (hr : r ≤ 255) (hg : g ≤ 255) (hb : b ≤ 255) :
    (rgbToHex r g b).data =
      '#' :: [toHexDigit (r / 16), toHexDigit (r % 16),
              toHexDigit (g / 16), toHexDigit (g % 16),
              toHexDigit (b / 16), toHexDigit (b % 16)] := by
  simp [rgbToHex, String.join, padStart2_toHexChars hr, padStart2_toHexChars hg,
    padStart2_toHexChars hb]

/-- C9: the 6-hex-digit string encoding round-trips losslessly on 8-bit
channels: `hexToRgb(rgbToHex(r, g, b)) = {r, g, b}` for all channels in
[0, 255]. -/
theorem hexToRgb_rgbToHex (r g b : Nat) (hr : r ≤ 255) (hg : g ≤ 255) (hb : b ≤ 255) :
    hexToRgb (rgbToHex r g b) = (r, g, b) := by
  have hdata := data_rgbToHex r g b hr hg hb
  unfold hexToRgb
  rw [hdata]
  simp only [List.drop]
  rw [parseHexNat_digits _ _ _ _ (by omega) (by omega),
      parseHexNat_digits _ _ _ _ (by omega) (by omega),
      parseHexNat_digits _ _ _ _ (by omega) (by omega)]
  simp only [parseHexNat]
  have h1 : 16 * (16 * (16 * (16 * (16 * (16 * 0 + r / 16) + r % 16) + g / 16) + g % 16)
      + b / 16) + b % 16 = r * 65536 + g * 256 + b := by omega
  rw [h1]
  have h2 : (r * 65536 + g * 256 + b) % 2 ^ 32 = r * 65536 + g * 256 + b := by
    apply Nat.mod_eq_of_lt; omega
  rw [h2]
  refine Prod.ext ?_ (Prod.ext ?_ ?_) <;> simp only <;> omega

/-- Witness for C9 at a concrete channel triple. -/
theorem hexToRgb_rgbToHex_witness :
    18 ≤ 255 ∧ hexToRgb (rgbToHex 18 52 86) = (18, 52, 86) :=
  ⟨by decide, hexToRgb_rgbToHex 18 52 86 (by decide) (by decide) (by decide)⟩

/-! ### RGB squared distance and the nearest-palette-color loop
(image_worker.js lines 48-54 and the inner loop of processImage,
lines 806-816) -/

/-- An RGB color as a triple of (integer) channel values. -/
abbrev Color := Int × Int × Int

/-- JS `colorDistance(c1, c2)`: squared Euclidean distance in RGB space. -/
def colorDistance (c1 c2 : Color) : Int :=
  (c1.1 - c2.1) * (c1.1 - c2.1) + (c1.2.1 - c2.2.1) * (c1.2.1 - c2.2.1) +
    (c1.2.2 - c2.2.2) * (c1.2.2 - c2.2.2)

/-- The `minDistance / bandIndex` scan of processImage: walk the palette
keeping the index of the closest color seen so far.  `none` models the
JS initialization `minDistance = Infinity` (every finite distance
compares below it).  `k` is the index of the head of the remaining
palette. -/
def nearestLoop (px : Color) : List Color → Nat → Nat × Option Int → Nat × Option Int
  | [], _, s => s
  | c :: cs, k, (bi, bd) =>
    let d := colorDistance px c
    match bd with
    | none => nearestLoop px cs (k + 1) (k, some d)
    | some m =>
      if d < m then nearestLoop px cs (k + 1) (k, some d)
      else nearestLoop px cs (k + 1) (bi, some m)

/-- Index of the nearest palette color for a pixel (first index wins
ties), as computed by the band-map loop of processImage. -/
def nearestIdx (pal : List Color) (px : Color) : Nat :=
  (nearestLoop px pal 0 (0, none)).1

theorem nearestLoop_spec (px : Color) (D : Nat → Int) :
    ∀ (cs : List Color) (k bi : Nat) (m : Int),
      (∀ i, i < cs.length → D (k + i) = colorDistance px (cs.getD i (0, 0, 0))) →
      bi < k → m = D bi →
      (∀ i, i < k → m ≤ D i) →
      (∀ i, i < k → D i = m → bi ≤ i) →
      (nearestLoop px cs k (bi, some m)).1 < k + cs.length ∧
        (nearestLoop px cs k (bi, some m)).2 = some (D (nearestLoop px cs k (bi, some m)).1) ∧
        (∀ i, i < k + cs.length → D (nearestLoop px cs k (bi, some m)).1 ≤ D i) ∧
        (∀ i, i < k + cs.length → D i = D (nearestLoop px cs k (bi, some m)).1 →
          (nearestLoop px cs k (bi, some m)).1 ≤ i) := by
  intro cs
  induction cs with
  | nil =>
    intro k bi m hD hbi hm hmin htie
    simp only [nearestLoop, List.length_nil, Nat.add_zero]
    refine ⟨hbi, by rw [hm], ?_, ?_⟩
    · intro i hi; rw [← hm]; exact hmin i hi
    · intro i hi hDi; exact htie i hi (by rw [hDi, hm])
  | cons c cs ih =>
    intro k bi m hD hbi hm hmin htie
    have hDk : D k = colorDistance px c := by
      have := hD 0 (by simp)
      simpa using this
    have hlen : k + (c :: cs).length = (k + 1) + cs.length := by
      simp [List.length_cons]; omega
    by_cases hlt : colorDistance px c < m
    · have hstep : nearestLoop px (c :: cs) k (bi, some m) =
          nearestLoop px cs (k + 1) (k, some (colorDistance px c)) := by
        simp [nearestLoop, hlt]
      rw [hstep, hlen]
      apply ih (k + 1) k (colorDistance px c)
      · intro i hi
        have := hD (i + 1) (by simpa using Nat.succ_lt_succ hi)
        simpa [Nat.add_comm, Nat.add_assoc, Nat.add_left_comm] using this
      · omega
      · rw [hDk]
      · intro i hi
        rcases Nat.lt_or_ge i k with h' | h'
        · exact le_of_lt (lt_of_lt_of_le hlt (hmin i h'))
        · have : i = k := by omega
          rw [this, hDk]
      · intro i hi hDi
        rcases Nat.lt_or_ge i k with h' | h'
        · exact absurd hDi (by have := hmin i h'; rw [hDk] at *; omega)
        · omega
    · have hstep : nearestLoop px (c :: cs) k (bi, some m) =
          nearestLoop px cs (k + 1) (bi, some m) := by
        simp [nearestLoop, hlt]
      rw [hstep, hlen]
      apply ih (k + 1) bi m
      · intro i hi
        have := hD (i + 1) (by simpa using Nat.succ_lt_succ hi)
        simpa [Nat.add_comm, Nat.add_assoc, Nat.add_left_comm] using this
      · omega
      · exact hm
      · intro i hi
        rcases Nat.lt_or_ge i k with h' | h'
        · exact hmin i h'
        · have : i = k := by omega
          rw [this, hDk]; omega
      · intro i hi hDi
        rcases Nat.lt_or_ge i k with h' | h'
        · exact htie i h' hDi
        · omega

/-- Characterization of `nearestIdx` on a non-empty palette: the result
is a valid index, its distance is minimal, and among minimizers the
lowest index wins. -/
theorem nearestIdx_spec (px : Color) (pal : List Color) (h : pal ≠ []) :
    nearestIdx pal px < pal.length ∧
      (∀ k, k < pal.length →
        colorDistance px (pal.getD (nearestIdx pal px) (0, 0, 0)) ≤
          colorDistance px (pal.getD k (0, 0, 0))) ∧
      (∀ k, k < pal.length →
        colorDistance px (pal.getD k (0, 0, 0)) =
          colorDistance px (pal.getD (nearestIdx pal px) (0, 0, 0)) →
        nearestIdx pal px ≤ k) := by
  obtain ⟨c, cs, rfl⟩ : ∃ c cs, pal = c :: cs := by
    cases pal with
    | nil => exact absurd rfl h
    | cons c cs => exact ⟨c, cs, rfl⟩
  have hunfold : nearestIdx (c :: cs) px =
      (nearestLoop px cs 1 (0, some (colorDistance px c))).1 := by
    simp [nearestIdx, nearestLoop]
  have hspec := nearestLoop_spec px
    (fun i => colorDistance px ((c :: cs).getD i (0, 0, 0))) cs 1 0 (colorDistance px c)
    (fun i _ => by rw [Nat.add_comm]; simp) (by omega) (by simp) ?_ ?_
  · rw [hunfold]
    obtain ⟨h1, _, h3, h4⟩ := hspec
    simp only [List.length_cons]
    refine ⟨by omega, ?_, ?_⟩
    · intro k hk
      exact h3 k (by omega)
    · intro k hk hd
      exact h4 k (by omega) hd
  · intro i hi
    have : i = 0 := by omega
    simp [this]
  · intro i hi _
    omega

/-! ### processImage (image_worker.js lines 778-875) -/

/-- Widen the `hexToRgb` channel triple to integer channels. -/
def toColor (x : Nat × Nat × Nat) : Color := ((x.1 : Int), (x.2.1 : Int), (x.2.2 : Int))

/-- The pixel walk `for (i = 0; i < data.length; i += 4)` over the flat
RGBA buffer, reading the r,g,b bytes of each pixel. -/
def pixelsOf : List Nat → List Color
  | r :: g :: b :: _a :: rest => ((r : Int), (g : Int), (b : Int)) :: pixelsOf rest
  | _ => []

/-- The RGB triples of the structural (suggested) palette:
`palette.map(color => hexToRgb(color))`. -/
def structuralColors (sp : List String) : List Color :=
  sp.map (fun c => toColor (hexToRgb c))

/-- The `appState` fields consumed by processImage. -/
structure PIAppState where
  imageData : List Nat
  width : Nat
  height : Nat
  suggestedPalette : List String
  currentPalette : Option (List String)

/-- The two DOM inputs read by processImage (already parsed). -/
structure PIDomElements where
  layerSlider : Nat
  singleLayerToggle : Bool

/-- Result of processImage: the band raster and the RGBA preview. -/
structure PIResult where
  bandMap : List Nat
  previewData : List (Nat × Nat × Nat × Nat)
deriving DecidableEq

/-- One pass of the preview painting loop for a given `layer`: pixels
whose band equals `layer` are recolored with `hexToRgb(renderPalette[layer])`.
A missing palette entry is only an error (JS `undefined.slice` throws)
when some pixel actually needs it, hence the `Option`. -/
def drawLayer (renderPalette : List String) (bandMap : List Nat) (layer : Nat)
    (preview : List (Nat × Nat × Nat × Nat)) : Option (List (Nat × Nat × Nat × Nat)) :=
  preview.enum.mapM fun jp =>
    if bandMap.get? jp.1 = some layer then
      (renderPalette.get? layer).map fun c =>
        ((hexToRgb c).1, (hexToRgb c).2.1, (hexToRgb c).2.2, 255)
    else some jp.2

/-- JS `processImage(appState, domElements)`: build the band raster from the
structural palette, then composite the preview from the render palette.
Returns `none` both for the explicit `return null` (empty palette) and
for the JS exceptions thrown on a missing render-palette entry. -/
def processImage (st : PIAppState) (dom : PIDomElements) : Option PIResult :=
  let renderPalette := st.currentPalette.getD st.suggestedPalette
  let paletteColors := structuralColors st.suggestedPalette
  if paletteColors.length = 0 then none
  else
    let bandMap := (pixelsOf st.imageData).map (fun px => nearestIdx paletteColors px)
    match renderPalette.get? 0 with
    | none => none
    | some c0 =>
      let base := hexToRgb c0
      let previewInit : List (Nat × Nat × Nat × Nat) :=
        List.replicate (st.width * st.height) (base.1, base.2.1, base.2.2, 255)
      let drawn :=
        if dom.singleLayerToggle then
          if 0 < dom.layerSlider then
            drawLayer renderPalette bandMap dom.layerSlider previewInit
          else some previewInit
        else
          (List.range' 1 dom.layerSlider).foldlM
            (fun pv layer => drawLayer renderPalette bandMap layer pv) previewInit
      drawn.map fun pv => ⟨bandMap, pv⟩

/-- Any successful processImage run has a non-empty structural palette,
and its band raster is exactly the nearest-structural-color map of the
pixel buffer. -/
theorem processImage_some_bandMap (st : PIAppState) (dom : PIDomElements) (r : PIResult)
    (h : processImage st dom = some r) :
    structuralColors st.suggestedPalette ≠ [] ∧
      r.bandMap = (pixelsOf st.imageData).map
        (fun px => nearestIdx (structuralColors st.suggestedPalette) px) := by
  unfold processImage at h
  by_cases hpal : (structuralColors st.suggestedPalette).length = 0
  · simp [hpal] at h
  · constructor
    · intro hnil
      exact hpal (by rw [hnil]; rfl)
    · simp only [hpal, if_neg, if_false] at h
      rcases hget : (st.currentPalette.getD st.suggestedPalette).get? 0 with _ | c0
      · rw [hget] at h; simp at h
      · rw [hget] at h
        simp only [Option.map_eq_some'] at h
        obtain ⟨pv, _, hr⟩ := h
        rw [← hr]

/-- C1: the band raster of processImage depends only on the image data
and the structural palette; any two render (current) palettes yield
bit-identical band rasters. -/
theorem processImage_bandMap_render_independent
    (imageData : List Nat) (w h : Nat) (sp : List String)
    (cp₁ cp₂ : Option (List String)) (dom₁ dom₂ : PIDomElements) (r₁ r₂ : PIResult)
    (h₁ : processImage ⟨imageData, w, h, sp, cp₁⟩ dom₁ = some r₁)
    (h₂ : processImage ⟨imageData, w, h, sp, cp₂⟩ dom₂ = some r₂) :
    r₁.bandMap = r₂.bandMap := by
  rw [(processImage_some_bandMap _ _ _ h₁).2, (processImage_some_bandMap _ _ _ h₂).2]

/-- Witness for C1: the same 1-pixel black image quantized against the
structural palette ["#000000"] under two different render palettes. -/
theorem processImage_bandMap_render_independent_witness :
    processImage ⟨[0, 0, 0, 255], 1, 1, ["#000000"], some ["#ff0000"]⟩ ⟨0, false⟩ =
        some ⟨[0], [(255, 0, 0, 255)]⟩ ∧
      processImage ⟨[0, 0, 0, 255], 1, 1, ["#000000"], some ["#00ff00"]⟩ ⟨0, false⟩ =
        some ⟨[0], [(0, 255, 0, 255)]⟩ ∧
      (PIResult.mk [0] [(255, 0, 0, 255)]).bandMap =
        (PIResult.mk [0] [(0, 255, 0, 255)]).bandMap :=
  ⟨by decide, by decide,
    processImage_bandMap_render_independent [0, 0, 0, 255] 1 1 ["#000000"]
      (some ["#ff0000"]) (some ["#00ff00"]) ⟨0, false⟩ ⟨0, false⟩ _ _
      (by decide) (by decide)⟩

/-- C2: every entry of the band raster returned by processImage is a
valid index into the structural palette, is the nearest palette color to
its pixel by squared RGB distance, and ties go to the lowest index. -/
theorem processImage_bandMap_spec (st : PIAppState) (dom : PIDomElements) (r : PIResult)
    (h : processImage st dom = some r) (j : Nat) (hj : j < r.bandMap.length) :
    ∃ px, (pixelsOf st.imageData).get? j = some px ∧
      r.bandMap.get? j = some (nearestIdx (structuralColors st.suggestedPalette) px) ∧
      nearestIdx (structuralColors st.suggestedPalette) px <
        (structuralColors st.suggestedPalette).length ∧
      (∀ k, k < (structuralColors st.suggestedPalette).length →
        colorDistance px ((structuralColors st.suggestedPalette).getD
            (nearestIdx (structuralColors st.suggestedPalette) px) (0, 0, 0)) ≤
          colorDistance px ((structuralColors st.suggestedPalette).getD k (0, 0, 0))) ∧
      (∀ k, k < (structuralColors st.suggestedPalette).length →
        colorDistance px ((structuralColors st.suggestedPalette).getD k (0, 0, 0)) =
          colorDistance px ((structuralColors st.suggestedPalette).getD
            (nearestIdx (structuralColors st.suggestedPalette) px) (0, 0, 0)) →
        nearestIdx (structuralColors st.suggestedPalette) px ≤ k) := by
  obtain ⟨hne, hbm⟩ := processImage_some_bandMap st dom r h
  rw [hbm] at hj ⊢
  rw [List.length_map] at hj
  refine ⟨(pixelsOf st.imageData).get ⟨j, hj⟩, List.get?_eq_get hj, ?_, ?_⟩
  · rw [List.get?_map, List.get?_eq_get hj]; rfl
  · obtain ⟨hlt, hmin, htie⟩ :=
      nearestIdx_spec ((pixelsOf st.imageData).get ⟨j, hj⟩)
        (structuralColors st.suggestedPalette) hne
    exact ⟨hlt, hmin, htie⟩

/-- Witness for C2 on a concrete 1-pixel image and 2-color palette. -/
theorem processImage_bandMap_spec_witness :
    processImage ⟨[10, 10, 10, 255], 1, 1, ["#000000", "#ffffff"], none⟩ ⟨0, false⟩ =
        some ⟨[0], [(0, 0, 0, 255)]⟩ ∧
      (∃ px, (pixelsOf [10, 10, 10, 255]).get? 0 = some px ∧
        (PIResult.mk [0] [(0, 0, 0, 255)]).bandMap.get? 0 =
          some (nearestIdx (structuralColors ["#000000", "#ffffff"]) px) ∧
        nearestIdx (structuralColors ["#000000", "#ffffff"]) px <
          (structuralColors ["#000000", "#ffffff"]).length ∧
        (∀ k, k < (structuralColors ["#000000", "#ffffff"]).length →
          colorDistance px ((structuralColors ["#000000", "#ffffff"]).getD
              (nearestIdx (structuralColors ["#000000", "#ffffff"]) px) (0, 0, 0)) ≤
            colorDistance px ((structuralColors ["#000000", "#ffffff"]).getD k (0, 0, 0))) ∧
        (∀ k, k < (structuralColors ["#000000", "#ffffff"]).length →
          colorDistance px ((structuralColors ["#000000", "#ffffff"]).getD k (0, 0, 0)) =
            colorDistance px ((structuralColors ["#000000", "#ffffff"]).getD
              (nearestIdx (structuralColors ["#000000", "#ffffff"]) px) (0, 0, 0)) →
          nearestIdx (structuralColors ["#000000", "#ffffff"]) px ≤ k)) :=
  ⟨by decide,
    processImage_bandMap_spec ⟨[10, 10, 10, 255], 1, 1, ["#000000", "#ffffff"], none⟩
      ⟨0, false⟩ ⟨[0], [(0, 0, 0, 255)]⟩ (by decide) 0 (by decide)⟩

/-! ### Palette uniqueness enforcement
(image_worker.js lines 551-614: ensureUniqueColors / findDistinctColor)

`Math.random()` is modelled by explicit oracles: for each palette
position, the list of pixel indices sampled by the attempt loop (the
model of the at-most-100 draws) and the RGB triple produced by the final
random fallback. -/

/-- Read the RGB bytes of sampled pixel number `p`
(`imageData[4p], imageData[4p+1], imageData[4p+2]`).  The real RNG only
produces in-range pixel numbers, so the out-of-range default is never
exercised by the modelled runs. -/
def sampleAt (imageData : List Nat) (p : Nat) : Nat × Nat × Nat :=
  (imageData.getD (4 * p) 0, imageData.getD (4 * p + 1) 0, imageData.getD (4 * p + 2) 0)

/-- The distinctness check of findDistinctColor: the candidate must be at
squared-RGB distance at least 10000 from every used color. -/
def distinctFromUsed (used : List String) (c : Nat × Nat × Nat) : Bool :=
  used.all fun u => 10000 ≤ colorDistance (toColor c) (toColor (hexToRgb u))

/-- JS `findDistinctColor(usedColors, imageData)`: try the sampled pixels in
order; on success return that pixel's hex color; once the attempts are
exhausted, return the random fallback triple as hex — without any
distinctness check. -/
def findDistinctColor (used : List String) (imageData : List Nat) :
    List Nat → Nat × Nat × Nat → String
  | [], fb => rgbToHex fb.1 fb.2.1 fb.2.2
  | p :: ps, fb =>
    let c := sampleAt imageData p
    if distinctFromUsed used c then rgbToHex c.1 c.2.1 c.2.2
    else findDistinctColor used imageData ps fb

/-- Loop body of ensureUniqueColors: walk the palette, replacing any
color already in the used set by `findDistinctColor`.  `i` indexes the
oracle; `unique` and `used` mirror the JS accumulator array and Set. -/
def ensureUniqueAux (imageData : List Nat) (oracle : Nat → List Nat × (Nat × Nat × Nat)) :
    List String → Nat → List String → List String → List String
  | [], _, unique, _ => unique
  | c :: cs, i, unique, used =>
    if c ∈ used then
      let alt := findDistinctColor used imageData (oracle i).1 (oracle i).2
      ensureUniqueAux imageData oracle cs (i + 1) (unique ++ [alt]) (used ++ [alt])
    else
      ensureUniqueAux imageData oracle cs (i + 1) (unique ++ [c]) (used ++ [c])

/-- JS `ensureUniqueColors(colors, imageData)` with the randomness oracle
made explicit. -/
def ensureUniqueColors (colors : List String) (imageData : List Nat)
    (oracle : Nat → List Nat × (Nat × Nat × Nat)) : List String :=
  ensureUniqueAux imageData oracle colors 0 [] []

/-- Counterexample to C3: on an all-black image, every sampled
replacement candidate is at distance 0 from the used color "#000000",
so all attempts fail and the unchecked random fallback runs; a fallback
draw of (0,0,0) re-emits "#000000", so the "unique" palette still
contains a bitwise-identical duplicate pair. -/
theorem ensureUniqueColors_duplicate_counterexample :
    ensureUniqueColors ["#000000", "#000000"] [0, 0, 0, 255]
        (fun _ => (List.replicate 100 0, (0, 0, 0))) = ["#000000", "#000000"] ∧
      ¬ (["#000000", "#000000"] : List String).Nodup := by
  constructor
  · decide
  · decide

/-- Checker for the amended C3 hypothesis: at least one attempt of the
sampling loop passes the distance-10000 test. -/
def samplingOk (imageData : List Nat) (used : List String) (attempts : List Nat) : Bool :=
  attempts.any fun p => distinctFromUsed used (sampleAt imageData p)

/-- Checker that every replacement performed during the
ensureUniqueColors run is found by the checked sampling path (the random
fallback is never reached). -/
def allSamplingOk (imageData : List Nat) (oracle : Nat → List Nat × (Nat × Nat × Nat)) :
    List String → Nat → List String → Bool
  | [], _, _ => true
  | c :: cs, i, used =>
    if c ∈ used then
      samplingOk imageData used (oracle i).1 &&
        allSamplingOk imageData oracle cs (i + 1)
          (used ++ [findDistinctColor used imageData (oracle i).1 (oracle i).2])
    else allSamplingOk imageData oracle cs (i + 1) (used ++ [c])

theorem getD_le_255 (l : List Nat) :
    ∀ (n d : Nat), (∀ v ∈ l, v ≤ 255) → d ≤ 255 → l.getD n d ≤ 255 := by
  induction l with
  | nil => intro n d _ hd; simpa [List.getD] using hd
  | cons a l ih =>
    intro n d hv hd
    cases n with
    | zero => simpa using hv a (by simp)
    | succ n =>
      simp only [List.getD_cons_succ]
      exact ih n d (fun v hvm => hv v (by simp [hvm])) hd

theorem sampleAt_le_255 (imageData : List Nat) (hv : ∀ v ∈ imageData, v ≤ 255) (p : Nat) :
    (sampleAt imageData p).1 ≤ 255 ∧ (sampleAt imageData p).2.1 ≤ 255 ∧
      (sampleAt imageData p).2.2 ≤ 255 :=
  ⟨getD_le_255 imageData _ _ hv (by omega), getD_le_255 imageData _ _ hv (by omega),
    getD_le_255 imageData _ _ hv (by omega)⟩

theorem colorDistance_self (c : Color) : colorDistance c c = 0 := by
  simp [colorDistance]

/-- A color accepted by the checked sampling path is not in the used
set: if it rendered to the same hex string as a used color, the
round-trip `hexToRgb ∘ rgbToHex` would put it at distance 0 < 10000. -/
theorem findDistinctColor_not_mem (used : List String) (imageData : List Nat)
    (hv : ∀ v ∈ imageData, v ≤ 255) :
    ∀ (attempts : List Nat) (fb : Nat × Nat × Nat),
      samplingOk imageData used attempts = true →
      findDistinctColor used imageData attempts fb ∉ used := by
  intro attempts
  induction attempts with
  | nil => intro fb hok; simp [samplingOk] at hok
  | cons p ps ih =>
    intro fb hok hmem
    by_cases hd : distinctFromUsed used (sampleAt imageData p) = true
    · rw [findDistinctColor] at hmem
      simp only [hd, if_pos] at hmem
      obtain ⟨h1, h2, h3⟩ := sampleAt_le_255 imageData hv p
      have hrt := hexToRgb_rgbToHex _ _ _ h1 h2 h3
      have hdist := (List.all_eq_true.mp hd) _ hmem
      rw [hrt] at hdist
      simp [toColor, colorDistance] at hdist
    · rw [findDistinctColor] at hmem
      simp only [hd, if_neg, Bool.false_eq_true, not_false_eq_true, if_false] at hmem
      have hok' : samplingOk imageData used ps = true := by
        simp only [samplingOk, List.any_cons, Bool.or_eq_true] at hok
        rcases hok with h | h
        · exact absurd h hd
        · exact h
      exact ih fb hok' hmem

theorem ensureUniqueAux_nodup (imageData : List Nat)
    (oracle : Nat → List Nat × (Nat × Nat × Nat)) (hv : ∀ v ∈ imageData, v ≤ 255) :
    ∀ (cs : List String) (i : Nat) (unique used : List String),
      unique.Nodup → (∀ x ∈ unique, x ∈ used) →
      allSamplingOk imageData oracle cs i used = true →
      (ensureUniqueAux imageData oracle cs i unique used).Nodup := by
  intro cs
  induction cs with
  | nil => intro i unique used hnd _ _; simpa [ensureUniqueAux] using hnd
  | cons c cs ih =>
    intro i unique used hnd hsub hok
    by_cases hc : c ∈ used
    · rw [ensureUniqueAux]
      simp only [hc, if_pos]
      rw [allSamplingOk] at hok
      simp only [hc, if_pos, Bool.and_eq_true] at hok
      have halt : findDistinctColor used imageData (oracle i).1 (oracle i).2 ∉ used :=
        findDistinctColor_not_mem used imageData hv _ _ hok.1
      apply ih (i + 1)
      · refine List.Nodup.append hnd (List.nodup_singleton _) ?_
        intro x hx hxm
        rw [List.mem_singleton] at hxm
        subst hxm
        exact halt (hsub _ hx)
      · intro x hx
        rcases List.mem_append.mp hx with h | h
        · exact List.mem_append.mpr (Or.inl (hsub x h))
        · exact List.mem_append.mpr (Or.inr h)
      · exact hok.2
    · rw [ensureUniqueAux]
      simp only [hc, if_neg, not_false_eq_true, if_false]
      rw [allSamplingOk] at hok
      simp only [hc, if_neg, not_false_eq_true, if_false] at hok
      apply ih (i + 1)
      · refine List.Nodup.append hnd (List.nodup_singleton _) ?_
        intro x hx hxm
        rw [List.mem_singleton] at hxm
        subst hxm
        exact hc (hsub _ hx)
      · intro x hx
        rcases List.mem_append.mp hx with h | h
        · exact List.mem_append.mpr (Or.inl (hsub x h))
        · exact List.mem_append.mpr (Or.inr h)
      · exact hok

/-- Amended C3: the final palette contains no two bitwise-identical hex
strings whenever every replacement is produced by the distance-checked
sampling path; only the unchecked random fallback can introduce
duplicates. -/
theorem ensureUniqueColors_nodup_of_samplingOk (colors : List String) (imageData : List Nat)
    (oracle : Nat → List Nat × (Nat × Nat × Nat))
    (hv : ∀ v ∈ imageData, v ≤ 255)
    (hok : allSamplingOk imageData oracle colors 0 [] = true) :
    (ensureUniqueColors colors imageData oracle).Nodup :=
  ensureUniqueAux_nodup imageData oracle hv colors 0 [] [] List.nodup_nil
    (by intro x hx; cases hx) hok

/-- Witness for the amended C3: a duplicate pair is repaired through a
successful sample of the white pixel, giving a duplicate-free palette. -/
theorem ensureUniqueColors_nodup_witness :
    allSamplingOk [0, 0, 0, 255, 255, 255, 255, 255] (fun _ => ([1], (9, 9, 9)))
        ["#000000", "#000000"] 0 [] = true ∧
      (ensureUniqueColors ["#000000", "#000000"] [0, 0, 0, 255, 255, 255, 255, 255]
        (fun _ => ([1], (9, 9, 9)))).Nodup :=
  ⟨by decide,
    ensureUniqueColors_nodup_of_samplingOk ["#000000", "#000000"]
      [0, 0, 0, 255, 255, 255, 255, 255] (fun _ => ([1], (9, 9, 9)))
      (by decide) (by decide)⟩

/-! ### Filament matching (image_worker.js lines 447-516: matchToPalette)

The JS `Set`s `usedSuggestions` / `usedFilaments` are represented by the
assignment list itself: a suggested index is used iff its slot holds
`some j`, and a filament index `j` is used iff `some j` occurs in some
slot.  JS `Array.prototype.sort` is stable, so it is modelled by the
stable `List.insertionSort`. -/

/-- A filament inventory entry; the matcher only reads `color`. -/
structure Filament where
  color : String
deriving DecidableEq

/-- One candidate pairing: (suggestedIndex, filamentIndex, distance). -/
abbrev MatchEntry := Nat × Nat × Int

/-- The complete cross product of suggested-color / filament pairs with
their squared RGB distances, in suggested-major push order. -/
def allMatchesOf (suggested : List String) (filamentRgb : List Color) : List MatchEntry :=
  suggested.enum.flatMap fun sc =>
    filamentRgb.enum.map fun fc => (sc.1, fc.1, colorDistance (toColor (hexToRgb sc.2)) fc.2)

/-- JS `allMatches.sort((a, b) => a.distance - b.distance)`: a stable
ascending sort on distance. -/
def sortMatches (l : List MatchEntry) : List MatchEntry :=
  l.insertionSort fun a b => a.2.2 ≤ b.2.2

/-- One step of the greedy pass: skip if the suggested slot or the
filament index is already used, otherwise commit the assignment. -/
def greedyStep (assign : List (Option Nat)) (m : MatchEntry) : List (Option Nat) :=
  if (assign.getD m.1 none).isSome ∨ some m.2.1 ∈ assign then assign
  else assign.set m.1 (some m.2.1)

/-- The greedy walk over the sorted match list. -/
def greedyLoop (sorted : List MatchEntry) (assign : List (Option Nat)) : List (Option Nat) :=
  sorted.foldl greedyStep assign

/-- The inner scan of the fill loop: the first filament index not yet
used by any assignment. -/
def firstUnused (assign : List (Option Nat)) (invLen : Nat) : Option Nat :=
  (List.range invLen).find? fun j => decide (some j ∉ assign)

/-- The fill pass: every still-unmatched suggested slot takes the first
unused filament; when the inventory is exhausted the slot stays `none`
(serialized as filament 0's color, the JS last resort). -/
def fillLoop (invLen : Nat) : List Nat → List (Option Nat) → List (Option Nat)
  | [], assign => assign
  | i :: is, assign =>
    fillLoop invLen is
      (if assign.getD i none = none then
        match firstUnused assign invLen with
        | some j => assign.set i (some j)
        | none => assign
      else assign)

/-- The filament-index assignment computed by matchToPalette (greedy
pass then fill pass). -/
def matchAssign (suggested : List String) (myFilaments : List Filament) : List (Option Nat) :=
  fillLoop myFilaments.length (List.range suggested.length)
    (greedyLoop
      (sortMatches (allMatchesOf suggested
        ((myFilaments.map Filament.color).map fun c => toColor (hexToRgb c))))
      (List.replicate suggested.length none))

/-- JS `matchToPalette(suggestedPalette, myFilaments)`: empty inventory
returns the suggested palette unchanged; otherwise serialize the
assignment through the filament colors, with filament 0's color as the
last-resort fallback for unfilled slots. -/
def matchToPalette (suggested : List String) (myFilaments : List Filament) : List String :=
  if myFilaments = [] then suggested
  else
    (matchAssign suggested myFilaments).map fun o =>
      match o with
      | some j => (myFilaments.map Filament.color).getD j ""
      | none => (myFilaments.map Filament.color).getD 0 ""

/-- No filament index is assigned to two different suggested slots. -/
def AssignInj (assign : List (Option Nat)) : Prop :=
  ∀ i1 i2 j, assign.get? i1 = some (some j) → assign.get? i2 = some (some j) → i1 = i2

theorem get?_set_some_cases {a : List (Option Nat)} {i n : Nat} {v w : Option Nat}
    (h : (a.set i v).get? n = some w) :
    (n = i ∧ v = w ∧ i < a.length) ∨ (n ≠ i ∧ a.get? n = some w) := by
  by_cases e : n = i
  · subst e
    by_cases hi : n < a.length
    · left
      refine ⟨rfl, ?_, hi⟩
      rw [List.get?_set_eq_of_lt _ hi] at h
      injection h
    · rw [List.set_eq_of_length_le (by omega)] at h
      rw [List.get?_eq_none.mpr (by omega)] at h
      cases h
  · right
    refine ⟨e, ?_⟩
    rw [List.get?_set_ne _ _ (fun he => e he.symm)] at h
    exact h

theorem setFresh_inj {a : List (Option Nat)} {i j : Nat}
    (hinj : AssignInj a) (hfresh : some j ∉ a) : AssignInj (a.set i (some j)) := by
  intro i1 i2 j' h1 h2
  rcases get?_set_some_cases h1 with ⟨e1, hv1, _⟩ | ⟨e1, h1'⟩ <;>
    rcases get?_set_some_cases h2 with ⟨e2, hv2, _⟩ | ⟨e2, h2'⟩
  · omega
  · have : j = j' := by injection hv1
    subst this
    exact absurd (List.get?_mem h2') hfresh
  · have : j = j' := by injection hv2
    subst this
    exact absurd (List.get?_mem h1') hfresh
  · exact hinj i1 i2 j' h1' h2'

theorem setFresh_range {a : List (Option Nat)} {n i j : Nat}
    (hr : ∀ i' j', a.get? i' = some (some j') → j' < n) (hj : j < n) :
    ∀ i' j', (a.set i (some j)).get? i' = some (some j') → j' < n := by
  intro i' j' h
  rcases get?_set_some_cases h with ⟨_, hv, _⟩ | ⟨_, h'⟩
  · have : j = j' := by injection hv
    omega
  · exact hr i' j' h'

theorem greedyStep_inj {a : List (Option Nat)} (m : MatchEntry) (h : AssignInj a) :
    AssignInj (greedyStep a m) := by
  unfold greedyStep
  split
  · exact h
  · rename_i hguard
    push_neg at hguard
    exact setFresh_inj h hguard.2

theorem greedyStep_range {a : List (Option Nat)} {n : Nat} (m : MatchEntry)
    (hm : m.2.1 < n) (h : ∀ i j, a.get? i = some (some j) → j < n) :
    ∀ i j, (greedyStep a m).get? i = some (some j) → j < n := by
  unfold greedyStep
  split
  · exact h
  · exact setFresh_range h hm

theorem greedyStep_length (a : List (Option Nat)) (m : MatchEntry) :
    (greedyStep a m).length = a.length := by
  unfold greedyStep
  split
  · rfl
  · exact List.length_set a m.1 (some m.2.1)

theorem greedyLoop_inj :
    ∀ (l : List MatchEntry) (a : List (Option Nat)), AssignInj a → AssignInj (greedyLoop l a) := by
  intro l
  induction l with
  | nil => intro a h; exact h
  | cons m l ih => intro a h; exact ih (greedyStep a m) (greedyStep_inj m h)

theorem greedyLoop_range {n : Nat} :
    ∀ (l : List MatchEntry) (a : List (Option Nat)), (∀ m ∈ l, m.2.1 < n) →
      (∀ i j, a.get? i = some (some j) → j < n) →
      ∀ i j, (greedyLoop l a).get? i = some (some j) → j < n := by
  intro l
  induction l with
  | nil => intro a _ h; exact h
  | cons m l ih =>
    intro a hl h
    exact ih (greedyStep a m) (fun m' hm' => hl m' (by simp [hm']))
      (greedyStep_range m (hl m (by simp)) h)

theorem greedyLoop_length :
    ∀ (l : List MatchEntry) (a : List (Option Nat)), (greedyLoop l a).length = a.length := by
  intro l
  induction l with
  | nil => intro a; rfl
  | cons m l ih =>
    intro a
    rw [show greedyLoop (m :: l) a = greedyLoop l (greedyStep a m) from rfl, ih,
      greedyStep_length]

theorem firstUnused_some {a : List (Option Nat)} {n j : Nat}
    (h : firstUnused a n = some j) : j < n ∧ some j ∉ a := by
  constructor
  · exact List.mem_range.mp (List.mem_of_find?_eq_some h)
  · have := List.find?_some h
    simpa using this

theorem firstUnused_none {a : List (Option Nat)} {n : Nat}
    (h : firstUnused a n = none) : ∀ j, j < n → some j ∈ a := by
  intro j hj
  have := List.find?_eq_none.mp h j (List.mem_range.mpr hj)
  simpa using this

theorem fillLoop_length (invLen : Nat) :
    ∀ (is : List Nat) (a : List (Option Nat)), (fillLoop invLen is a).length = a.length := by
  intro is
  induction is with
  | nil => intro a; rfl
  | cons i is ih =>
    intro a
    rw [fillLoop, ih]
    split
    · split
      · exact List.length_set a _ _
      · rfl
    · rfl

theorem fillLoop_mem_mono (invLen : Nat) :
    ∀ (is : List Nat) (a : List (Option Nat)) (j : Nat),
      some j ∈ a → some j ∈ fillLoop invLen is a := by
  intro is
  induction is with
  | nil => intro a j h; exact h
  | cons i is ih =>
    intro a j h
    rw [fillLoop]
    apply ih
    split
    · rename_i hslot
      split
      · rename_i j' _
        obtain ⟨m, hm⟩ := List.mem_iff_get?.mp h
        have hmi : m ≠ i := by
          intro he
          rw [he] at hm
          rcases ho : a.get? i with _ | v
          · rw [ho] at hm; cases hm
          · have : v = none := by
              have := hslot
              rw [show a.getD i none = (a.get? i).getD none from rfl, ho] at this
              simpa using this
            rw [ho, this] at hm
            cases hm
        exact List.mem_iff_get?.mpr ⟨m, by rw [List.get?_set_ne _ _ (fun he => hmi he.symm)]; exact hm⟩
      · exact h
    · exact h

theorem fillLoop_slot_mono (invLen : Nat) :
    ∀ (is : List Nat) (a : List (Option Nat)) (i j : Nat),
      a.get? i = some (some j) → (fillLoop invLen is a).get? i = some (some j) := by
  intro is
  induction is with
  | nil => intro a i j h; exact h
  | cons i0 is ih =>
    intro a i j h
    rw [fillLoop]
    apply ih
    split
    · rename_i hslot
      have hne : i0 ≠ i := by
        intro he
        rw [show a.getD i0 none = (a.get? i0).getD none from rfl, he, h] at hslot
        simp at hslot
      split
      · rw [List.get?_set_ne _ _ hne]; exact h
      · exact h
    · exact h

theorem fillLoop_inj (invLen : Nat) :
    ∀ (is : List Nat) (a : List (Option Nat)), AssignInj a → AssignInj (fillLoop invLen is a) := by
  intro is
  induction is with
  | nil => intro a h; exact h
  | cons i is ih =>
    intro a h
    rw [fillLoop]
    apply ih
    split
    · split
      · rename_i j hj
        exact setFresh_inj h (firstUnused_some hj).2
      · exact h
    · exact h

theorem fillLoop_range {n : Nat} (invLen : Nat) (hn : invLen ≤ n) :
    ∀ (is : List Nat) (a : List (Option Nat)),
      (∀ i j, a.get? i = some (some j) → j < n) →
      ∀ i j, (fillLoop invLen is a).get? i = some (some j) → j < n := by
  intro is
  induction is with
  | nil => intro a h; exact h
  | cons i is ih =>
    intro a h
    rw [fillLoop]
    apply ih
    split
    · split
      · rename_i j hj
        exact setFresh_range h (by have := (firstUnused_some hj).1; omega)
      · exact h
    · exact h

theorem fillLoop_none_exhausted (invLen : Nat) :
    ∀ (is : List Nat) (a : List (Option Nat)) (i : Nat),
      i ∈ is → (fillLoop invLen is a).get? i = some none →
      ∀ j, j < invLen → some j ∈ fillLoop invLen is a := by
  intro is
  induction is with
  | nil => intro a i h; cases h
  | cons i0 is ih =>
    intro a i hmem hnone j hj
    rcases List.mem_cons.mp hmem with he | hin
    · subst he
      rw [fillLoop] at hnone ⊢
      by_cases hslot : a.getD i none = none
      · rcases hfu : firstUnused a invLen with _ | j'
        · simp only [if_pos hslot, hfu] at hnone ⊢
          exact fillLoop_mem_mono invLen is a j (firstUnused_none hfu j hj)
        · simp only [if_pos hslot, hfu] at hnone ⊢
          by_cases hi : i < a.length
          · have hset : (a.set i (some j')).get? i = some (some j') :=
              List.get?_set_eq_of_lt _ hi
            have := fillLoop_slot_mono invLen is _ i j' hset
            rw [this] at hnone
            cases hnone
          · have hlen : (fillLoop invLen is (a.set i (some j'))).length ≤ i := by
              rw [fillLoop_length, List.length_set]; omega
            rw [List.get?_eq_none.mpr hlen] at hnone
            cases hnone
      · simp only [if_neg hslot] at hnone ⊢
        rcases ho : a.get? i with _ | v
        · rw [show a.getD i none = (a.get? i).getD none from rfl, ho] at hslot
          simp at hslot
        · rcases v with _ | j0
          · rw [show a.getD i none = (a.get? i).getD none from rfl, ho] at hslot
            simp at hslot
          · have := fillLoop_slot_mono invLen is a i j0 ho
            rw [this] at hnone
            cases hnone
    · rw [fillLoop] at hnone ⊢
      exact ih _ i hin hnone j hj

theorem allMatchesOf_filamentIndex_lt (suggested : List String) (rgb : List Color) :
    ∀ m ∈ allMatchesOf suggested rgb, m.2.1 < rgb.length := by
  intro m hm
  unfold allMatchesOf at hm
  rw [List.mem_flatMap] at hm
  obtain ⟨sc, _, hm⟩ := hm
  rw [List.mem_map] at hm
  obtain ⟨fc, hfc, rfl⟩ := hm
  exact List.fst_lt_of_mem_enum hfc

theorem matchAssign_length (s : List String) (f : List Filament) :
    (matchAssign s f).length = s.length := by
  unfold matchAssign
  rw [fillLoop_length, greedyLoop_length, List.length_replicate]

theorem replicate_none_inj (n : Nat) : AssignInj (List.replicate n (none : Option Nat)) := by
  intro i1 i2 j h1 _
  have := List.eq_of_mem_replicate (List.get?_mem h1)
  cases this

theorem matchAssign_inj (s : List String) (f : List Filament) : AssignInj (matchAssign s f) := by
  unfold matchAssign
  exact fillLoop_inj _ _ _ (greedyLoop_inj _ _ (replicate_none_inj _))

theorem matchAssign_range (s : List String) (f : List Filament) :
    ∀ i j, (matchAssign s f).get? i = some (some j) → j < f.length := by
  unfold matchAssign
  apply fillLoop_range _ (le_refl _)
  apply greedyLoop_range
  · intro m hm
    have := allMatchesOf_filamentIndex_lt s
      ((f.map Filament.color).map fun c => toColor (hexToRgb c)) m
      ((List.mem_insertionSort _).mp hm)
    simpa using this
  · intro i j h
    have := List.eq_of_mem_replicate (List.get?_mem h)
    cases this

theorem matchAssign_exhaustive (s : List String) (f : List Filament)
    (hlt : f.length < s.length) : ∀ j, j < f.length → some j ∈ matchAssign s f := by
  by_cases hnone : ∃ i ∈ List.range s.length, (matchAssign s f).get? i = some none
  · obtain ⟨i, hi, hget⟩ := hnone
    exact fun j hj => fillLoop_none_exhausted f.length (List.range s.length) _ i hi hget j hj
  · exfalso
    push_neg at hnone
    have hsome : ∀ i, i < s.length → ∃ j, (matchAssign s f).get? i = some (some j) := by
      intro i hi
      have hi' : i < (matchAssign s f).length := by rw [matchAssign_length]; exact hi
      rcases ho : (matchAssign s f).get? i with _ | v
      · rw [List.get?_eq_none] at ho; omega
      · rcases v with _ | j
        · exact absurd ho (hnone i (List.mem_range.mpr hi))
        · exact ⟨j, rfl⟩
    have hcard : (Finset.range s.length).card ≤ (Finset.range f.length).card := by
      apply Finset.card_le_card_of_injOn
        (fun i => ((matchAssign s f).getD i none).getD 0)
      · intro i hi
        obtain ⟨j, hj⟩ := hsome i (Finset.mem_range.mp hi)
        rw [Finset.mem_range]
        rw [show (matchAssign s f).getD i none = ((matchAssign s f).get? i).getD none from rfl,
          hj]
        exact matchAssign_range s f i j hj
      · intro i1 h1 i2 h2 heq
        obtain ⟨j1, hj1⟩ := hsome i1 (Finset.mem_range.mp h1)
        obtain ⟨j2, hj2⟩ := hsome i2 (Finset.mem_range.mp h2)
        have heq' : ((matchAssign s f).getD i1 none).getD 0 =
            ((matchAssign s f).getD i2 none).getD 0 := heq
        rw [show (matchAssign s f).getD i1 none = ((matchAssign s f).get? i1).getD none from rfl,
          hj1] at heq'
        rw [show (matchAssign s f).getD i2 none = ((matchAssign s f).get? i2).getD none from rfl,
          hj2] at heq'
        simp only [Option.getD_some] at heq'
        subst heq'
        exact matchAssign_inj s f i1 i2 j1 hj1 hj2
    simp only [Finset.card_range] at hcard
    omega

/-- Counterexample to C4 as stated.  First run: two filaments with the
bitwise-identical color "#000000" and a 2-color palette — the inventory
is at least as large as the palette, yet the returned color "#000000"
is used twice.  Second run: a 2-entry inventory of distinct colors
against a 3-color palette — the output repeats "#000000" at position 1
before the inventory color "#ffffff" ever appears, so fewer than
|inventory| distinct colors occur before the first repeat. -/
theorem matchToPalette_counterexample :
    matchToPalette ["#000000", "#0000ff"] [⟨"#000000"⟩, ⟨"#000000"⟩] =
        ["#000000", "#000000"] ∧
      ¬ (["#000000", "#000000"] : List String).Nodup ∧
      matchToPalette ["#808080", "#000000", "#ffffff"] [⟨"#000000"⟩, ⟨"#ffffff"⟩] =
        ["#000000", "#000000", "#ffffff"] ∧
      ¬ (["#000000", "#000000"] : List String).Nodup ∧
      "#ffffff" ∉ (["#000000", "#000000"] : List String) := by
  refine ⟨by decide, by decide, by decide, by decide, by decide⟩

/-- Amended C4: the matcher's guarantees hold at the level of inventory
entries, not color strings: no inventory entry is ever assigned to two
output slots; when the inventory is smaller than the palette every
inventory entry appears in the assignment (somewhere in the output, not
necessarily before the first repeated color), and the output colors are
exactly the assignment serialized through the inventory colors with
entry 0's color as the last-resort fallback. -/
theorem matchToPalette_assign_spec (suggested : List String) (myFilaments : List Filament)
    (hne : myFilaments ≠ []) :
    AssignInj (matchAssign suggested myFilaments) ∧
      (myFilaments.length < suggested.length →
        ∀ j, j < myFilaments.length → some j ∈ matchAssign suggested myFilaments) ∧
      matchToPalette suggested myFilaments =
        ((matchAssign suggested myFilaments).map fun o =>
          match o with
          | some j => (myFilaments.map Filament.color).getD j ""
          | none => (myFilaments.map Filament.color).getD 0 "") := by
  refine ⟨matchAssign_inj _ _, matchAssign_exhaustive _ _, ?_⟩
  unfold matchToPalette
  rw [if_neg hne]

/-- Witness for the amended C4 with a 2-entry inventory and a 3-color
palette. -/
theorem matchToPalette_assign_spec_witness :
    ([⟨"#000000"⟩, ⟨"#ffffff"⟩] : List Filament) ≠ [] ∧
      (AssignInj (matchAssign ["#808080", "#000000", "#ffffff"]
          [⟨"#000000"⟩, ⟨"#ffffff"⟩]) ∧
        (([⟨"#000000"⟩, ⟨"#ffffff"⟩] : List Filament).length <
            (["#808080", "#000000", "#ffffff"] : List String).length →
          ∀ j, j < ([⟨"#000000"⟩, ⟨"#ffffff"⟩] : List Filament).length →
            some j ∈ matchAssign ["#808080", "#000000", "#ffffff"]
              [⟨"#000000"⟩, ⟨"#ffffff"⟩]) ∧
        matchToPalette ["#808080", "#000000", "#ffffff"] [⟨"#000000"⟩, ⟨"#ffffff"⟩] =
          ((matchAssign ["#808080", "#000000", "#ffffff"]
              [⟨"#000000"⟩, ⟨"#ffffff"⟩]).map fun o =>
            match o with
            | some j => (([⟨"#000000"⟩, ⟨"#ffffff"⟩] : List Filament).map
                Filament.color).getD j ""
            | none => (([⟨"#000000"⟩, ⟨"#ffffff"⟩] : List Filament).map
                Filament.color).getD 0 "")) :=
  ⟨by decide,
    matchToPalette_assign_spec ["#808080", "#000000", "#ffffff"]
      [⟨"#000000"⟩, ⟨"#ffffff"⟩] (by decide)⟩

/-! ### Heightfield mesh generation (stl_exporter.js: generateStl)

Physical coordinates are modelled as rationals.  Each pixel produces two
vertices, pushed bottom-then-top, so pixel `p` has bottom vertex index
`2p` and top vertex index `2p + 1`, exactly as in the source's
`vertices.push` order.  JS division by zero (`W = 1` gives
`dx = width / 0 = Infinity`) has no rational counterpart; the claims
settled here never inspect coordinate values of such degenerate inputs,
only the absence of any rejection path and the face counts, which do not
depend on `dx`/`dy`. -/

/-- Index of the top vertex of pixel `(j, i)` for image width `W`. -/
def tvIdx (W j i : Nat) : Nat := 2 * (j * W + i) + 1

/-- Index of the bottom vertex of pixel `(j, i)` for image width `W`. -/
def bvIdx (W j i : Nat) : Nat := 2 * (j * W + i)

/-- The read `bandHeights[band] || 0`: the lookup succeeds only when `band` is a
natural number below the table length (a negative, fractional, or
too-large band indexes `undefined`, and `undefined || 0` is 0). -/
def heightLookup (hs : List ℚ) (band : ℚ) : ℚ :=
  if 0 ≤ band.num ∧ band.den = 1 ∧ band.num.toNat < hs.length then
    hs.getD band.num.toNat 0
  else 0

/-- Height of the top vertex read through the vertically flipped band
map index; a read past the end of the band map is `undefined`, making
the height `0` as well. -/
def topHeight (bandHeights : List ℚ) (bandMap : List ℚ) (idx : Nat) : ℚ :=
  match bandMap.get? idx with
  | some b => heightLookup bandHeights b
  | none => 0

/-- The loop `bandHeights[i] = bandHeights[i-1] + additionalBandLayers *
singleLayerHeight`. -/
def mkBandHeightsAux (prev inc : ℚ) : Nat → List ℚ
  | 0 => []
  | n + 1 => (prev + inc) :: mkBandHeightsAux (prev + inc) inc n

/-- The band-height lookup table: `bandHeights[0]` is the base height
and each later band adds the increment.  (JS builds `new Array(numBands)`
but then always writes index 0, so the table never has fewer than one
entry.) -/
def mkBandHeights (base inc : ℚ) (numBands : Nat) : List ℚ :=
  base :: mkBandHeightsAux base inc (numBands - 1)

/-- Top and bottom surface triangles: four per 2×2 pixel quad, in the
source's push order. -/
def stlQuadFaces (W H : Nat) : List (Nat × Nat × Nat) :=
  (List.range (H - 1)).flatMap fun j =>
    (List.range (W - 1)).flatMap fun i =>
      [(tvIdx W j i, tvIdx W j (i + 1), tvIdx W (j + 1) (i + 1)),
       (tvIdx W j i, tvIdx W (j + 1) (i + 1), tvIdx W (j + 1) i),
       (bvIdx W j i, bvIdx W (j + 1) (i + 1), bvIdx W j (i + 1)),
       (bvIdx W j i, bvIdx W (j + 1) i, bvIdx W (j + 1) (i + 1))]

/-- Vertical wall triangles along the front (`j = 0`) and back
(`j = H−1`) edges: four per horizontal edge segment. -/
def stlWallFacesFrontBack (W H : Nat) : List (Nat × Nat × Nat) :=
  (List.range (W - 1)).flatMap fun i =>
    [(bvIdx W 0 i, tvIdx W 0 i, tvIdx W 0 (i + 1)),
     (bvIdx W 0 i, tvIdx W 0 (i + 1), bvIdx W 0 (i + 1)),
     (bvIdx W (H - 1) i, tvIdx W (H - 1) (i + 1), tvIdx W (H - 1) i),
     (bvIdx W (H - 1) i, bvIdx W (H - 1) (i + 1), tvIdx W (H - 1) (i + 1))]

/-- Vertical wall triangles along the left (`i = 0`) and right
(`i = W−1`) edges: four per vertical edge segment. -/
def stlWallFacesLeftRight (W H : Nat) : List (Nat × Nat × Nat) :=
  (List.range (H - 1)).flatMap fun j =>
    [(bvIdx W j 0, tvIdx W j 0, tvIdx W (j + 1) 0),
     (bvIdx W j 0, tvIdx W (j + 1) 0, bvIdx W (j + 1) 0),
     (bvIdx W j (W - 1), tvIdx W (j + 1) (W - 1), tvIdx W j (W - 1)),
     (bvIdx W j (W - 1), bvIdx W (j + 1) (W - 1), tvIdx W (j + 1) (W - 1))]

/-- The full face list in the source's generation order: surface quads,
then front/back walls, then left/right walls. -/
def stlFaces (W H : Nat) : List (Nat × Nat × Nat) :=
  stlQuadFaces W H ++ stlWallFacesFrontBack W H ++ stlWallFacesLeftRight W H

/-- The vertex list: per pixel, a bottom vertex at z = 0 then a top
vertex at the band height, reading the band map with the vertically
flipped row index. -/
def stlVertices (bandMap : List ℚ) (W H : Nat) (dx dy : ℚ) (bandHeights : List ℚ) :
    List (ℚ × ℚ × ℚ) :=
  (List.range H).flatMap fun j =>
    (List.range W).flatMap fun i =>
      [((i : ℚ) * dx, (j : ℚ) * dy, 0),
       ((i : ℚ) * dx, (j : ℚ) * dy, topHeight bandHeights bandMap ((H - 1 - j) * W + i))]

/-- Parameters of generateStl (DOM values already parsed). -/
structure StlParams where
  bandMap : List ℚ
  imageWidth : Nat
  imageHeight : Nat
  singleLayerHeight : ℚ
  additionalBandLayers : ℚ
  baseThicknessInLayers : ℚ
  numBands : Nat
  modelWidth : ℚ
  modelDepth : ℚ

/-- The generated mesh: vertices, triangle list, and the byte length of
the binary buffer `84 + 50 · triangleCount`. -/
structure StlResult where
  vertices : List (ℚ × ℚ × ℚ)
  faces : List (Nat × Nat × Nat)
  byteLength : Nat

/-- JS `generateStl(appState, domElements)`: heights table, vertex lattice,
triangulation and buffer size.  There is no validation or error path in
the source: the function is total and always returns a mesh. -/
def generateStl (p : StlParams) : StlResult :=
  let dx := p.modelWidth / ((p.imageWidth : ℚ) - 1)
  let dy := p.modelDepth / ((p.imageHeight : ℚ) - 1)
  let bandHeights := mkBandHeights (p.baseThicknessInLayers * p.singleLayerHeight)
    (p.additionalBandLayers * p.singleLayerHeight) p.numBands
  let faces := stlFaces p.imageWidth p.imageHeight
  { vertices := stlVertices p.bandMap p.imageWidth p.imageHeight dx dy bandHeights,
    faces := faces,
    byteLength := 84 + faces.length * 50 }

theorem length_flatMap_const {α β : Type} (l : List α) (f : α → List β) (c : Nat)
    (h : ∀ a ∈ l, (f a).length = c) : (l.flatMap f).length = l.length * c := by
  induction l with
  | nil => simp
  | cons a l ih =>
    rw [List.flatMap_cons, List.length_append, h a (by simp),
      ih (fun x hx => h x (by simp [hx])), List.length_cons]
    ring

theorem stlQuadFaces_length (W H : Nat) :
    (stlQuadFaces W H).length = (H - 1) * ((W - 1) * 4) := by
  have hinner : ∀ j, ((List.range (W - 1)).flatMap fun i =>
      [(tvIdx W j i, tvIdx W j (i + 1), tvIdx W (j + 1) (i + 1)),
       (tvIdx W j i, tvIdx W (j + 1) (i + 1), tvIdx W (j + 1) i),
       (bvIdx W j i, bvIdx W (j + 1) (i + 1), bvIdx W j (i + 1)),
       (bvIdx W j i, bvIdx W (j + 1) i, bvIdx W (j + 1) (i + 1))]).length = (W - 1) * 4 := by
    intro j
    have h := length_flatMap_const (List.range (W - 1))
      (fun i =>
        [(tvIdx W j i, tvIdx W j (i + 1), tvIdx W (j + 1) (i + 1)),
         (tvIdx W j i, tvIdx W (j + 1) (i + 1), tvIdx W (j + 1) i),
         (bvIdx W j i, bvIdx W (j + 1) (i + 1), bvIdx W j (i + 1)),
         (bvIdx W j i, bvIdx W (j + 1) i, bvIdx W (j + 1) (i + 1))])
      4 (fun a _ => rfl)
    rw [h, List.length_range]
  have houter := length_flatMap_const (List.range (H - 1))
    (fun j => (List.range (W - 1)).flatMap fun i =>
      [(tvIdx W j i, tvIdx W j (i + 1), tvIdx W (j + 1) (i + 1)),
       (tvIdx W j i, tvIdx W (j + 1) (i + 1), tvIdx W (j + 1) i),
       (bvIdx W j i, bvIdx W (j + 1) (i + 1), bvIdx W j (i + 1)),
       (bvIdx W j i, bvIdx W (j + 1) i, bvIdx W (j + 1) (i + 1))])
    ((W - 1) * 4) (fun j _ => hinner j)
  rw [stlQuadFaces, houter, List.length_range]

theorem stlWallFacesFrontBack_length (W H : Nat) :
    (stlWallFacesFrontBack W H).length = (W - 1) * 4 := by
  have h := length_flatMap_const (List.range (W - 1))
    (fun i =>
      [(bvIdx W 0 i, tvIdx W 0 i, tvIdx W 0 (i + 1)),
       (bvIdx W 0 i, tvIdx W 0 (i + 1), bvIdx W 0 (i + 1)),
       (bvIdx W (H - 1) i, tvIdx W (H - 1) (i + 1), tvIdx W (H - 1) i),
       (bvIdx W (H - 1) i, bvIdx W (H - 1) (i + 1), tvIdx W (H - 1) (i + 1))])
    4 (fun a _ => rfl)
  rw [stlWallFacesFrontBack, h, List.length_range]

theorem stlWallFacesLeftRight_length (W H : Nat) :
    (stlWallFacesLeftRight W H).length = (H - 1) * 4 := by
  have h := length_flatMap_const (List.range (H - 1))
    (fun j =>
      [(bvIdx W j 0, tvIdx W j 0, tvIdx W (j + 1) 0),
       (bvIdx W j 0, tvIdx W (j + 1) 0, bvIdx W (j + 1) 0),
       (bvIdx W j (W - 1), tvIdx W (j + 1) (W - 1), tvIdx W j (W - 1)),
       (bvIdx W j (W - 1), bvIdx W (j + 1) (W - 1), tvIdx W (j + 1) (W - 1))])
    4 (fun a _ => rfl)
  rw [stlWallFacesLeftRight, h, List.length_range]

/-- C6: for W, H ≥ 2 generateStl emits exactly
`4·(W−1)·(H−1) + 4·(W−1) + 4·(H−1)` triangles. -/
theorem generateStl_triangle_count (p : StlParams)
    (_hW : 2 ≤ p.imageWidth) (_hH : 2 ≤ p.imageHeight) :
    (generateStl p).faces.length =
      4 * (p.imageWidth - 1) * (p.imageHeight - 1) +
        4 * (p.imageWidth - 1) + 4 * (p.imageHeight - 1) := by
  show (stlFaces p.imageWidth p.imageHeight).length = _
  unfold stlFaces
  rw [List.length_append, List.length_append, stlQuadFaces_length,
    stlWallFacesFrontBack_length, stlWallFacesLeftRight_length]
  generalize p.imageWidth - 1 = a
  generalize p.imageHeight - 1 = b
  ring

/-- Witness for C6 on a 2×2 raster: 4 + 4 + 4 = 12 triangles. -/
theorem generateStl_triangle_count_witness :
    2 ≤ (2 : Nat) ∧
      (generateStl ⟨[0, 0, 0, 0], 2, 2, 2/10, 1, 1, 2, 10, 10⟩).faces.length =
        4 * (2 - 1) * (2 - 1) + 4 * (2 - 1) + 4 * (2 - 1) :=
  ⟨by decide,
    generateStl_triangle_count ⟨[0, 0, 0, 0], 2, 2, 2/10, 1, 1, 2, 10, 10⟩
      (by decide) (by decide)⟩

/-- C5 (code behavior at the failing input): for a 1-pixel-wide raster
the source performs no validation: it divides by `W − 1 = 0` (JS
Infinity) and still returns a mesh — here with the 4·(H−1) = 4 wall
triangles of the left/right edge loop and a well-formed buffer size,
rather than rejecting with a validation error. -/
theorem generateStl_width1_emits_mesh :
    (generateStl ⟨[0, 0], 1, 2, 2/10, 1, 1, 2, 10, 10⟩).faces.length = 4 ∧
      (generateStl ⟨[0, 0], 1, 2, 2/10, 1, 1, 2, 10, 10⟩).byteLength = 84 + 4 * 50 := by
  constructor
  · rfl
  · rfl

/-! ### Normal computation during serialization
(stl_exporter.js lines 184-205) -/

/-- The face normal before normalization: cross product `u × v` of the
two edge vectors. -/
def crossVec (v1 v2 v3 : ℚ × ℚ × ℚ) : ℚ × ℚ × ℚ :=
  let ux := v2.1 - v1.1
  let uy := v2.2.1 - v1.2.1
  let uz := v2.2.2 - v1.2.2
  let vx := v3.1 - v1.1
  let vy := v3.2.1 - v1.2.1
  let vz := v3.2.2 - v1.2.2
  (uy * vz - uz * vy, uz * vx - ux * vz, ux * vy - uy * vx)

/-- Squared length of the face normal (`n[0]**2 + n[1]**2 + n[2]**2`,
the radicand of the normalizing length). -/
def crossLenSq (v1 v2 v3 : ℚ × ℚ × ℚ) : ℚ :=
  (crossVec v1 v2 v3).1 ^ 2 + (crossVec v1 v2 v3).2.1 ^ 2 + (crossVec v1 v2 v3).2.2 ^ 2

/-- C8: the normalizing divisor `Math.sqrt(lenSq) || 1` is strictly
positive for every vertex triple — so the three written normal
components are well-defined finite numbers, never NaN or Infinity — and
a degenerate triangle (zero cross product) writes the (0,0,0) normal. -/
theorem stlNormal_divisor_pos (v1 v2 v3 : ℚ × ℚ × ℚ) :
    (0 : ℝ) < (if Real.sqrt ((crossLenSq v1 v2 v3 : ℚ) : ℝ) = 0 then 1
      else Real.sqrt ((crossLenSq v1 v2 v3 : ℚ) : ℝ)) ∧
      (crossLenSq v1 v2 v3 = 0 → crossVec v1 v2 v3 = (0, 0, 0)) := by
  constructor
  · by_cases hz : Real.sqrt ((crossLenSq v1 v2 v3 : ℚ) : ℝ) = 0
    · rw [if_pos hz]; norm_num
    · rw [if_neg hz]
      have hnn : (0 : ℝ) ≤ Real.sqrt ((crossLenSq v1 v2 v3 : ℚ) : ℝ) := Real.sqrt_nonneg _
      exact lt_of_le_of_ne hnn (Ne.symm hz)
  · intro h
    unfold crossLenSq at h
    rcases hcv : crossVec v1 v2 v3 with ⟨n1, n2, n3⟩
    rw [hcv] at h
    simp only at h
    have s1 := sq_nonneg n1
    have s2 := sq_nonneg n2
    have s3 := sq_nonneg n3
    have h1 : n1 = 0 := by nlinarith
    have h2 : n2 = 0 := by nlinarith
    have h3 : n3 = 0 := by nlinarith
    rw [h1, h2, h3]

/-- C10: a band value with no entry in the band-height table (negative,
non-integral, or at/above the table length) contributes height 0: the
pixel's top vertex sits at z = 0 instead of erroring or emitting an
undefined coordinate. -/
theorem heightLookup_invalid_zero (hs : List ℚ) (b : ℚ)
    (h : ∀ k : Nat, k < hs.length → b ≠ (k : ℚ)) :
    heightLookup hs b = 0 ∧
      ∀ (bm : List ℚ) (idx : Nat), bm.get? idx = some b → topHeight hs bm idx = 0 := by
  have hmain : heightLookup hs b = 0 := by
    unfold heightLookup
    split
    · rename_i hg
      obtain ⟨h1, h2, h3⟩ := hg
      exfalso
      apply h b.num.toNat h3
      have hb : (b.num : ℚ) = b := (Rat.den_eq_one_iff b).mp h2
      have hn : (b.num.toNat : ℤ) = b.num := Int.toNat_of_nonneg h1
      rw [← hb, ← hn]
      push_cast
      rfl
    · rfl
  refine ⟨hmain, fun bm idx hbm => ?_⟩
  unfold topHeight
  rw [hbm]
  exact hmain

/-- Witness for C10: band value 7 against a 2-entry height table. -/
theorem heightLookup_invalid_zero_witness :
    (∀ k : Nat, k < ([1/5, 2/5] : List ℚ).length → (7 : ℚ) ≠ (k : ℚ)) ∧
      (heightLookup [1/5, 2/5] 7 = 0 ∧
        ∀ (bm : List ℚ) (idx : Nat), bm.get? idx = some 7 →
          topHeight [1/5, 2/5] bm idx = 0) :=
  ⟨by decide, heightLookup_invalid_zero [1/5, 2/5] 7 (by decide)⟩

/-! ### Farthest-point selection (image_worker.js lines 306-340)

The selection loop is parameterised by the candidate type `α`, the
distance codomain `β`, the comparison `blt` (JS `<` on numbers) and the
distance `d` (CIE76 `calculateDeltaE` in the source, whose
transcendental float evaluation plays no role in the control-flow
property proved here: the theorem holds for every distance and
comparison).  The JS initializations `minDistance = Infinity` and
`maxMinDistance = -1` always lose the first comparison against a real
distance, so the loops are modelled as seeded by their first element. -/

/-- Minimum Delta-E from a candidate to the current palette
`p0 :: palRest` (the palette is never empty: it is seeded with the most
impactful candidate). -/
def minDistToPalette {α β : Type} (blt : β → β → Bool) (d : α → α → β)
    (c p0 : α) (palRest : List α) : β :=
  palRest.foldl (fun m q => if blt (d c q) m then d c q else m) (d c p0)

/-- The argmax scan over the remaining candidates: keep the candidate
whose minimum distance to the palette is largest, first index winning
ties (strict comparison). -/
def pickBestGo {α β : Type} (blt : β → β → Bool) (d : α → α → β) (p0 : α) (pr : List α) :
    List α → Nat → Nat × α × β → Nat × α × β
  | [], _, acc => acc
  | c :: cs, i, (bi, bc, bv) =>
    let m := minDistToPalette blt d c p0 pr
    if blt bv m then pickBestGo blt d p0 pr cs (i + 1) (i, c, m)
    else pickBestGo blt d p0 pr cs (i + 1) (bi, bc, bv)

/-- Best remaining candidate (index and value) for the current palette. -/
def pickBest {α β : Type} (blt : β → β → Bool) (d : α → α → β) (p0 : α) (pr : List α)
    (c : α) (cs : List α) : Nat × α :=
  ((pickBestGo blt d p0 pr cs 1 (0, c, minDistToPalette blt d c p0 pr)).1,
   (pickBestGo blt d p0 pr cs 1 (0, c, minDistToPalette blt d c p0 pr)).2.1)

/-- The `while (finalPalette.length < numColors && remaining.length > 0)`
loop; the fuel is `numColors − palette.length`, the palette is
`p0 :: pr`. -/
def fpsGo {α β : Type} (blt : β → β → Bool) (d : α → α → β) (p0 : α) :
    List α → List α → Nat → List α
  | pr, _, 0 => pr
  | pr, [], _ + 1 => pr
  | pr, c :: cs, n + 1 =>
    fpsGo blt d p0 (pr ++ [(pickBest blt d p0 pr c cs).2])
      ((c :: cs).eraseIdx (pickBest blt d p0 pr c cs).1) n

/-- Farthest-point selection: seed with the highest-impact candidate
(head of the impact-sorted pool) and grow to `numColors`. -/
def getFps {α β : Type} (blt : β → β → Bool) (d : α → α → β)
    (cands : List α) (numColors : Nat) : List α :=
  match cands with
  | [] => []
  | c :: cs => c :: fpsGo blt d c [] cs (numColors - 1)

theorem fpsGo_palette_prefix {α β : Type} (blt : β → β → Bool) (d : α → α → β) (p0 : α) :
    ∀ (n : Nat) (pr rem : List α), pr <+: fpsGo blt d p0 pr rem n := by
  intro n
  induction n with
  | zero => intro pr rem; rw [fpsGo]
  | succ n ih =>
    intro pr rem
    cases rem with
    | nil => rw [fpsGo]
    | cons c cs =>
      rw [fpsGo]
      exact List.IsPrefix.trans (List.prefix_append pr _) (ih _ _)

theorem fpsGo_prefix {α β : Type} (blt : β → β → Bool) (d : α → α → β) (p0 : α) :
    ∀ (n : Nat) (pr rem : List α),
      fpsGo blt d p0 pr rem n <+: fpsGo blt d p0 pr rem (n + 1) := by
  intro n
  induction n with
  | zero =>
    intro pr rem
    rw [fpsGo]
    exact fpsGo_palette_prefix blt d p0 1 pr rem
  | succ n ih =>
    intro pr rem
    cases rem with
    | nil =>
      rw [fpsGo, fpsGo]
    | cons c cs =>
      rw [fpsGo, fpsGo]
      exact ih _ _

theorem pickBestGo_fst_lt {α β : Type} (blt : β → β → Bool) (d : α → α → β)
    (p0 : α) (pr : List α) :
    ∀ (cs : List α) (i : Nat) (acc : Nat × α × β), acc.1 < i →
      (pickBestGo blt d p0 pr cs i acc).1 < i + cs.length := by
  intro cs
  induction cs with
  | nil =>
    intro i acc h
    simpa [pickBestGo] using h
  | cons c cs ih =>
    intro i acc h
    obtain ⟨bi, bc, bv⟩ := acc
    rw [pickBestGo]
    simp only [List.length_cons]
    split
    · have := ih (i + 1) (i, c, minDistToPalette blt d c p0 pr) (by omega)
      omega
    · have := ih (i + 1) (bi, bc, bv) (by simp at h; omega)
      omega

theorem pickBest_fst_lt {α β : Type} (blt : β → β → Bool) (d : α → α → β)
    (p0 : α) (pr : List α) (c : α) (cs : List α) :
    (pickBest blt d p0 pr c cs).1 < (c :: cs).length := by
  have h := pickBestGo_fst_lt blt d p0 pr cs 1
    (0, c, minDistToPalette blt d c p0 pr) (by omega)
  simp only [pickBest, List.length_cons]
  omega

theorem fpsGo_length {α β : Type} (blt : β → β → Bool) (d : α → α → β) (p0 : α) :
    ∀ (n : Nat) (pr rem : List α),
      (fpsGo blt d p0 pr rem n).length = pr.length + min n rem.length := by
  intro n
  induction n with
  | zero => intro pr rem; simp [fpsGo]
  | succ n ih =>
    intro pr rem
    cases rem with
    | nil => simp [fpsGo]
    | cons c cs =>
      rw [fpsGo, ih]
      have hlt := pickBest_fst_lt blt d p0 pr c cs
      rw [List.length_eraseIdx_of_lt hlt]
      simp only [List.length_cons] at hlt
      simp only [List.length_append, List.length_cons, List.length_singleton, List.length_nil]
      omega

/-- C7: the greedy farthest-point construction is incremental — for a
requested size k ≥ 1, the selection equals the first k choices of the
size-(k+1) run over the same candidate pool (same seed, same distance,
same comparison). -/
theorem getFps_incremental {α β : Type} (blt : β → β → Bool) (d : α → α → β)
    (cands : List α) (k : Nat) (hk : 1 ≤ k) :
    getFps blt d cands k = (getFps blt d cands (k + 1)).take k := by
  cases cands with
  | nil => simp [getFps]
  | cons c cs =>
    obtain ⟨k', rfl⟩ : ∃ k', k = k' + 1 := ⟨k - 1, by omega⟩
    simp only [getFps, Nat.add_sub_cancel, List.take_succ_cons]
    congr 1
    have hpre := fpsGo_prefix blt d c k' [] cs
    have hlen1 : (fpsGo blt d c [] cs k').length = min k' cs.length := by
      rw [fpsGo_length]; simp
    have hlen2 : (fpsGo blt d c [] cs (k' + 1)).length = min (k' + 1) cs.length := by
      rw [fpsGo_length]; simp
    rw [List.prefix_iff_eq_take.mp hpre, hlen1]
    by_cases hc : k' ≤ cs.length
    · rw [min_eq_left hc]
    · rw [min_eq_right (by omega)]
      rw [List.take_of_length_le (by omega), List.take_of_length_le (by omega)]

/-- Witness for C7 on a concrete pool with a concrete metric. -/
theorem getFps_incremental_witness :
    1 ≤ 2 ∧
      getFps (fun a b => a < b) (fun a b : Nat => max a b - min a b) [5, 1, 9, 3] 2 =
        (getFps (fun a b => a < b) (fun a b : Nat => max a b - min a b) [5, 1, 9, 3] 3).take 2 :=
  ⟨by decide,
    getFps_incremental (fun a b => a < b) (fun a b : Nat => max a b - min a b)
      [5, 1, 9, 3] 2 (by decide)⟩

end ColorStack
